import Mathlib

/-!
Verification of the accession-to-taxonomy join-and-rewrite pipeline
(`scripts/other_scripts/database_scripts/rvdb_map_taxonomy.py`).

The embedding models the three core functions of the script —
`build_mapping_dict`, `process_rvdb_fasta` and `write_missing_ids` — over
lists of input lines.  Python string semantics (`str.strip`, `str.split`
with an explicit separator, `str.startswith`, slicing `[1:]`) are embedded
faithfully, and the mapping dictionary is modelled as a `collections.defaultdict`
whose subscript operation inserts the default value on a missing key, so that
frame properties about the dictionary are meaningful.

Progress messages (`[INFO] Processed ...`, emitted every 100 000 lines) are
pure observability and are not modelled; warning diagnostics, which the
claims mention, are modelled as an accumulated log.
-/

namespace Rvdb

/-- The six ASCII characters that Python `str.strip()` removes
(`str.isspace` on ASCII input). -/
def pyIsSpace (c : Char) : Bool :=
  c = ' ' || c = '\t' || c = '\n' || c = '\r' || c = '\x0b' || c = '\x0c'

/-- Remove leading whitespace from a character list (`lstrip`). -/
def stripLeft (l : List Char) : List Char :=
  l.dropWhile pyIsSpace

/-- Remove trailing whitespace from a character list (`rstrip`). -/
def stripRight (l : List Char) : List Char :=
  (l.reverse.dropWhile pyIsSpace).reverse

/-- Python `str.strip()` on the underlying character list. -/
def pyStripList (l : List Char) : List Char :=
  stripLeft (stripRight l)

/-- Python `str.strip()`. -/
def pyStrip (s : String) : String :=
  ⟨pyStripList s.data⟩

/-- Helper for `pySplit`: Python `str.split(sep)` with an explicit
one-character separator.  `acc` holds the current field, reversed. -/
def pySplitAux (sep : Char) : List Char → List Char → List String
  | [], acc => [⟨acc.reverse⟩]
  | c :: rest, acc =>
    if c = sep then ⟨acc.reverse⟩ :: pySplitAux sep rest []
    else pySplitAux sep rest (c :: acc)

/-- Python `s.split(sep)` for a one-character separator: splits at every
occurrence, keeping empty fields; `"".split(sep) == [""]`. -/
def pySplit (s : String) (sep : Char) : List String :=
  pySplitAux sep s.data []

/-- Python `s.startswith(c)` for a one-character prefix. -/
def pyStartsWith (s : String) (c : Char) : Bool :=
  s.data.head? = some c

/-- Python slicing `s[1:]`. -/
def pyDrop1 (s : String) : String :=
  ⟨s.data.drop 1⟩

/-- A value of the mapping dictionary: the `(acc, taxid, gi)` triple. -/
abbrev Triple := String × String × String

/-- Model of `collections.defaultdict` with default `("", "", "")`: an association
list of explicitly-set bindings (most recent binding first) together with the
default value produced for a missing key by subscripting. -/
structure DDict where
  entries : List (String × Triple)
  dfault : Triple

/-- Python `key in d`: membership test; never inserts. -/
def DDict.contains (d : DDict) (k : String) : Bool :=
  (d.entries.find? (fun e => e.1 = k)).isSome

/-- The binding a key currently has, if it was explicitly set. -/
def DDict.lookup (d : DDict) (k : String) : Option Triple :=
  (d.entries.find? (fun e => e.1 = k)).map Prod.snd

/-- Python `d[key] = v`: sets the binding; a later set shadows an earlier one. -/
def DDict.setItem (d : DDict) (k : String) (v : Triple) : DDict :=
  ⟨(k, v) :: d.entries, d.dfault⟩

/-- Python `d[key]` on a `defaultdict`: returns the bound value, or inserts
and returns the default when the key is missing.  Returns the (possibly
mutated) dictionary alongside the value. -/
def DDict.getItem (d : DDict) (k : String) : Triple × DDict :=
  match (d.entries.find? (fun e => e.1 = k)) with
  | some e => (e.2, d)
  | none => (d.dfault, ⟨(k, d.dfault) :: d.entries, d.dfault⟩)

/-- The fresh dictionary: a `defaultdict` with default `("", "", "")`. -/
def emptyDict : DDict :=
  ⟨[], ("", "", "")⟩

/-- Outcome of `build_mapping_dict` on one mapping-file line:
`fields = line.strip().split('\t')`; fewer than 4 fields is skipped with a
warning; exactly 4 unpacks into an entry; more than 4 makes the unpacking
statement `acc, acc_version, taxid, gi = fields` raise `ValueError`, which the
surrounding `except Exception` turns into `sys.exit(1)`. -/
inductive MapLineResult where
  | skip
  | entry (accVersion acc taxid gi : String)
  | unpackError
deriving DecidableEq

/-- Parse one line of the mapping file exactly as `build_mapping_dict` does. -/
def parseMappingLine (line : String) : MapLineResult :=
  let fields := pySplit (pyStrip line) '\t'
  if fields.length < 4 then .skip
  else
    match fields with
    | [acc, accVersion, taxid, gi] => .entry accVersion acc taxid gi
    | _ => .unpackError

/-- The diagnostic `build_mapping_dict` prints for a malformed line in
non-quiet mode. -/
def malformedLineWarn (i : Nat) (line : String) : String :=
  "[WARNING] Malformed line " ++ toString i ++ " in mapping file: " ++ pyStrip line

/-- The message of the `ValueError` raised by unpacking more than 4 fields,
reported by the fatal handler of `build_mapping_dict`. -/
def unpackErrMsg : String :=
  "[ERROR] Failed reading mapping file: too many values to unpack (expected 4)"

/-- `build_mapping_dict`, over the list of lines of the mapping file.
`i` is the 1-based line number of the first line of `lines`; `log` holds the
warnings emitted so far, most recent first.  A line with more than 4 fields
aborts the run (`sys.exit(1)`), modelled as `Except.error`. -/
def buildMappingDict (quiet : Bool) :
    List String → Nat → DDict → List String → Except String (DDict × List String)
  | [], _, d, log => .ok (d, log.reverse)
  | l :: ls, i, d, log =>
    match parseMappingLine l with
    | .skip =>
        buildMappingDict quiet ls (i + 1) d
          (if quiet then log else malformedLineWarn i l :: log)
    | .entry accVersion acc taxid gi =>
        buildMappingDict quiet ls (i + 1) (d.setItem accVersion (acc, taxid, gi)) log
    | .unpackError => .error unpackErrMsg

/-- The fixed header row `process_rvdb_fasta` writes to the join table. -/
def joinHeaderRow : String :=
  "accession\taccession.version\ttaxid\tgi\n"

/-- `line.startswith('>')`. -/
def isHeaderLine (line : String) : Bool :=
  pyStartsWith line '>'

/-- `header = line.strip()[1:]`: the header text without the sentinel. -/
def headerOf (line : String) : String :=
  pyDrop1 (pyStrip line)

/-- The key `process_rvdb_fasta` extracts from a header:
`fields = header.split('|')`; fewer than 3 fields is "not extractable",
otherwise the key is `fields[2]`. -/
def extractKey (header : String) : Option String :=
  let fields := pySplit header '|'
  if fields.length < 3 then none else some (fields.get! 2)

/-- The diagnostic `process_rvdb_fasta` prints for a malformed header in
non-quiet mode. -/
def malformedHeaderWarn (header : String) : String :=
  "[WARNING] Skipping malformed header: " ++ header

/-- State threaded through the rewrite pass of `process_rvdb_fasta`:
the mapping dictionary, the chunks written so far to the renamed FASTA and to
the join table (in write order), the in-memory `missing_ids` list, and the
warnings printed so far. -/
structure ProcState where
  dict : DDict
  fout : List String
  tab : List String
  missing : List String
  warnings : List String

/-- The loop body of `process_rvdb_fasta` for one line of the RVDB FASTA. -/
def processLine (quiet : Bool) (st : ProcState) (line : String) : ProcState :=
  if isHeaderLine line then
    let header := headerOf line
    match extractKey header with
    | none =>
        { st with warnings :=
            if quiet then st.warnings else st.warnings ++ [malformedHeaderWarn header] }
    | some pAcc =>
        if st.dict.contains pAcc then
          let r := st.dict.getItem pAcc
          { st with
              dict := r.2
              fout := st.fout ++ [">" ++ r.1.1 ++ " " ++ header ++ "\n"]
              tab := st.tab ++ [r.1.1 ++ "\t" ++ pAcc ++ "\t" ++ r.1.2.1 ++ "\t" ++ r.1.2.2 ++ "\n"] }
        else
          { st with missing := st.missing ++ [header] }
  else
    { st with fout := st.fout ++ [line] }

/-- The state `process_rvdb_fasta` starts its loop in: the loaded dictionary,
empty outputs except for the join-table header row already written. -/
def initState (d : DDict) : ProcState :=
  { dict := d, fout := [], tab := [joinHeaderRow], missing := [], warnings := [] }

/-- `process_rvdb_fasta` over the list of lines of the RVDB FASTA: writes the
join-table header row, then runs the loop. -/
def processRvdbFasta (quiet : Bool) (d : DDict) (lines : List String) : ProcState :=
  lines.foldl (processLine quiet) (initState d)

/-- Python `"\n".join(xs)`. -/
def pyJoinNl : List String → String
  | [] => ""
  | [x] => x
  | x :: y :: rest => x ++ "\n" ++ pyJoinNl (y :: rest)

/-- `write_missing_ids`: returns `None` (no file) when the list is empty,
otherwise the content written to the missing-id file,
`"\n".join(missing_ids)`. -/
def writeMissingIds (missingIds : List String) : Option String :=
  if missingIds.isEmpty then none
  else some (pyJoinNl missingIds)

/-- What one input line contributes to the rewritten FASTA, as a function of
the (immutable) lookup table: non-header lines pass through verbatim, hit
headers are rewritten, miss headers and malformed headers contribute
nothing. -/
def foutOf (d : DDict) (line : String) : Option String :=
  if isHeaderLine line then
    match extractKey (headerOf line) with
    | none => none
    | some k =>
      match d.lookup k with
      | some v => some (">" ++ v.1 ++ " " ++ headerOf line ++ "\n")
      | none => none
  else some line

/-- What one input line contributes to the join table: one tab-delimited row
per hit header, nothing otherwise. -/
def tabRowOf (d : DDict) (line : String) : Option String :=
  if isHeaderLine line then
    match extractKey (headerOf line) with
    | none => none
    | some k =>
      match d.lookup k with
      | some v => some (v.1 ++ "\t" ++ k ++ "\t" ++ v.2.1 ++ "\t" ++ v.2.2 ++ "\n")
      | none => none
  else none

/-- What one input line contributes to the missing-id list: the header text
when the line is a header whose key is extractable but absent from the lookup
table, nothing otherwise. -/
def missOf (d : DDict) (line : String) : Option String :=
  if isHeaderLine line then
    match extractKey (headerOf line) with
    | none => none
    | some k => if d.contains k then none else some (headerOf line)
  else none

/-- The well-formed entries of a mapping file, in read order, as
`(accession.version, (accession, taxid, gi))` pairs. -/
def mappingEntriesOf (lines : List String) : List (String × Triple) :=
  lines.filterMap fun l =>
    match parseMappingLine l with
    | .entry accVersion acc taxid gi => some (accVersion, (acc, taxid, gi))
    | _ => none

/-- The Needed-Key Set of a FASTA file: all Join Keys observed during a first
pass over its lines (the extractable keys of its header lines). -/
def neededKeys (lines : List String) : List String :=
  lines.filterMap fun l => if isHeaderLine l then extractKey (headerOf l) else none

/-- Modelled from the spec: the filtered-mode Mapping Loader of §4.2.  The
filtered-mode variant of the pipeline is described by the spec but its source
is not among the provided files; per the spec it parses each line into exactly
4 tab-separated fields, skips malformed lines (field count ≠ 4), and retains
an entry only when its accession.version field is a member of the Needed-Key
Set. -/
def buildMappingDictFiltered (needed : List String) : List String → DDict → DDict
  | [], d => d
  | l :: ls, d =>
    let fields := pySplit (pyStrip l) '\t'
    match fields with
    | [acc, accVersion, taxid, gi] =>
        if needed.contains accVersion then
          buildMappingDictFiltered needed ls (d.setItem accVersion (acc, taxid, gi))
        else
          buildMappingDictFiltered needed ls d
    | _ => buildMappingDictFiltered needed ls d

/-- A small mapping dictionary used to instantiate hypotheses of the claim
theorems at concrete inputs: the single binding of the worked scenario in
the spec. -/
def demoDict : DDict :=
  emptyDict.setItem "A1.1" ("A1", "9606", "12345")

/-! ### Basic dictionary lemmas -/

theorem DDict.contains_eq (d : DDict) (k : String) :
    d.contains k = (d.lookup k).isSome := by
  unfold DDict.contains DDict.lookup
  cases d.entries.find? (fun e => e.1 = k) <;> rfl

theorem DDict.getItem_of_lookup (d : DDict) (k : String) (v : Triple)
    (h : d.lookup k = some v) : d.getItem k = (v, d) := by
  unfold DDict.lookup at h
  unfold DDict.getItem
  cases hf : d.entries.find? (fun e => e.1 = k) with
  | none => rw [hf] at h; simp at h
  | some e =>
    rw [hf] at h
    simp only [Option.map_some', Option.some.injEq] at h
    simp [h]

theorem DDict.lookup_setItem (d : DDict) (k k2 : String) (v : Triple) :
    (d.setItem k v).lookup k2 = if k = k2 then some v else d.lookup k2 := by
  unfold DDict.setItem DDict.lookup
  by_cases h : k = k2
  · simp [List.find?_cons, h]
  · simp [List.find?_cons, h]

/-! ### Per-line behaviour of the rewrite pass -/

theorem processLine_dict (q : Bool) (st : ProcState) (l : String) :
    (processLine q st l).dict = st.dict := by
  unfold processLine
  cases hh : isHeaderLine l with
  | false => simp [hh]
  | true =>
    simp only [hh, if_true]
    cases hk : extractKey (headerOf l) with
    | none => rfl
    | some k =>
      simp only
      cases hc : st.dict.contains k with
      | false => simp [hc]
      | true =>
        rcases hv : st.dict.lookup k with _ | v
        · rw [DDict.contains_eq, hv] at hc; simp at hc
        · simp only [hc, if_true]
          rw [DDict.getItem_of_lookup st.dict k v hv]

theorem processLine_fout (q : Bool) (st : ProcState) (l : String) :
    (processLine q st l).fout = st.fout ++ (foutOf st.dict l).toList := by
  unfold processLine foutOf
  cases hh : isHeaderLine l with
  | false => simp [hh]
  | true =>
    simp only [hh, if_true]
    cases hk : extractKey (headerOf l) with
    | none => simp
    | some k =>
      simp only
      rcases hv : st.dict.lookup k with _ | v
      · have hc : st.dict.contains k = false := by
          rw [DDict.contains_eq, hv]; rfl
        simp [hc]
      · have hc : st.dict.contains k = true := by
          rw [DDict.contains_eq, hv]; rfl
        simp only [hc, if_true]
        rw [DDict.getItem_of_lookup st.dict k v hv]
        simp

theorem processLine_tab (q : Bool) (st : ProcState) (l : String) :
    (processLine q st l).tab = st.tab ++ (tabRowOf st.dict l).toList := by
  unfold processLine tabRowOf
  cases hh : isHeaderLine l with
  | false => simp [hh]
  | true =>
    simp only [hh, if_true]
    cases hk : extractKey (headerOf l) with
    | none => simp
    | some k =>
      simp only
      rcases hv : st.dict.lookup k with _ | v
      · have hc : st.dict.contains k = false := by
          rw [DDict.contains_eq, hv]; rfl
        simp [hc]
      · have hc : st.dict.contains k = true := by
          rw [DDict.contains_eq, hv]; rfl
        simp only [hc, if_true]
        rw [DDict.getItem_of_lookup st.dict k v hv]
        simp

theorem processLine_missing (q : Bool) (st : ProcState) (l : String) :
    (processLine q st l).missing = st.missing ++ (missOf st.dict l).toList := by
  unfold processLine missOf
  cases hh : isHeaderLine l with
  | false => simp [hh]
  | true =>
    simp only [hh, if_true]
    cases hk : extractKey (headerOf l) with
    | none => simp
    | some k =>
      simp only
      cases hc : st.dict.contains k with
      | false => simp [hc]
      | true =>
        rcases hv : st.dict.lookup k with _ | v
        · rw [DDict.contains_eq, hv] at hc; simp at hc
        · simp [hc]

/-! ### Whole-run characterisation of the rewrite pass -/

theorem foldl_dict (q : Bool) :
    ∀ (ls : List String) (st : ProcState),
      (ls.foldl (processLine q) st).dict = st.dict := by
  intro ls
  induction ls with
  | nil => intro st; rfl
  | cons l ls ih =>
    intro st
    rw [List.foldl_cons, ih, processLine_dict]

theorem foldl_fout (q : Bool) :
    ∀ (ls : List String) (st : ProcState),
      (ls.foldl (processLine q) st).fout = st.fout ++ ls.filterMap (foutOf st.dict) := by
  intro ls
  induction ls with
  | nil => intro st; simp
  | cons l ls ih =>
    intro st
    rw [List.foldl_cons, ih, processLine_fout, processLine_dict, List.filterMap_cons]
    cases foutOf st.dict l <;> simp

theorem foldl_tab (q : Bool) :
    ∀ (ls : List String) (st : ProcState),
      (ls.foldl (processLine q) st).tab = st.tab ++ ls.filterMap (tabRowOf st.dict) := by
  intro ls
  induction ls with
  | nil => intro st; simp
  | cons l ls ih =>
    intro st
    rw [List.foldl_cons, ih, processLine_tab, processLine_dict, List.filterMap_cons]
    cases tabRowOf st.dict l <;> simp

theorem foldl_missing (q : Bool) :
    ∀ (ls : List String) (st : ProcState),
      (ls.foldl (processLine q) st).missing = st.missing ++ ls.filterMap (missOf st.dict) := by
  intro ls
  induction ls with
  | nil => intro st; simp
  | cons l ls ih =>
    intro st
    rw [List.foldl_cons, ih, processLine_missing, processLine_dict, List.filterMap_cons]
    cases missOf st.dict l <;> simp

theorem processRvdbFasta_fout (q : Bool) (d : DDict) (ls : List String) :
    (processRvdbFasta q d ls).fout = ls.filterMap (foutOf d) := by
  unfold processRvdbFasta
  rw [foldl_fout]
  rfl

theorem processRvdbFasta_tab (q : Bool) (d : DDict) (ls : List String) :
    (processRvdbFasta q d ls).tab = joinHeaderRow :: ls.filterMap (tabRowOf d) := by
  unfold processRvdbFasta
  rw [foldl_tab]
  rfl

theorem processRvdbFasta_missing (q : Bool) (d : DDict) (ls : List String) :
    (processRvdbFasta q d ls).missing = ls.filterMap (missOf d) := by
  unfold processRvdbFasta
  rw [foldl_missing]
  rfl

/-! ### Case analysis of mapping-line parsing -/

theorem parseMappingLine_skip (l : String)
    (h : (pySplit (pyStrip l) '\t').length < 4) :
    parseMappingLine l = .skip := by
  unfold parseMappingLine
  simp [h]

theorem parseMappingLine_err (l : String)
    (h : 4 < (pySplit (pyStrip l) '\t').length) :
    parseMappingLine l = .unpackError := by
  have hn : ¬ (pySplit (pyStrip l) '\t').length < 4 := by omega
  unfold parseMappingLine
  simp only [if_neg hn]
  rcases hf : pySplit (pyStrip l) '\t' with _ | ⟨a, _ | ⟨b, _ | ⟨c, _ | ⟨e, _ | ⟨f, rest⟩⟩⟩⟩⟩ <;>
    first
      | rfl
      | (rw [hf] at h; simp at h)

theorem parseMappingLine_entry (l a b c d : String)
    (hf : pySplit (pyStrip l) '\t' = [a, b, c, d]) :
    parseMappingLine l = .entry b a c d := by
  unfold parseMappingLine
  simp [hf]

theorem parseMappingLine_entry_inv (l k a t g : String)
    (h : parseMappingLine l = .entry k a t g) :
    pySplit (pyStrip l) '\t' = [a, k, t, g] := by
  unfold parseMappingLine at h
  by_cases h4 : (pySplit (pyStrip l) '\t').length < 4
  · simp [h4] at h
  · simp only [if_neg h4] at h
    rcases hf : pySplit (pyStrip l) '\t' with _ | ⟨a2, _ | ⟨b2, _ | ⟨c2, _ | ⟨e2, _ | ⟨f2, rest⟩⟩⟩⟩⟩ <;>
      rw [hf] at h <;> simp_all

theorem missOf_eq_some (d : DDict) (l tok : String) :
    missOf d l = some tok ↔
      isHeaderLine l = true ∧
        ∃ k, extractKey (headerOf l) = some k ∧ d.contains k = false ∧ tok = headerOf l := by
  unfold missOf
  cases hh : isHeaderLine l with
  | false => simp
  | true =>
    simp only [if_true, true_and]
    cases hk : extractKey (headerOf l) with
    | none => simp
    | some k =>
      simp only
      cases hc : d.contains k with
      | true => simp [hc]
      | false =>
        simp only [Bool.false_eq_true, if_false, Option.some.injEq]
        constructor
        · intro h; exact ⟨k, rfl, hc, h.symm⟩
        · rintro ⟨k2, hk2, _, htok⟩; exact htok.symm

/-! ### Claim theorems -/

/-- Claim C2: for every FASTA header line whose extracted key is present in
the lookup table, the engine writes exactly one rewritten header line
`>` + canonical accession + space + original header text without the
sentinel, and appends exactly one tab-delimited join row
`accession, accession.version, taxid, gi` whose accession.version field is
the key; the join table begins with the fixed header row. -/
theorem hit_rewrites_header_and_appends_join_row
    (q : Bool) (st : ProcState) (l k a t g : String) (d : DDict) (ls : List String)
    (h1 : isHeaderLine l = true)
    (h2 : extractKey (headerOf l) = some k)
    (h3 : st.dict.lookup k = some (a, t, g)) :
    processLine q st l =
      { st with
          fout := st.fout ++ [">" ++ a ++ " " ++ headerOf l ++ "\n"],
          tab := st.tab ++ [a ++ "\t" ++ k ++ "\t" ++ t ++ "\t" ++ g ++ "\n"] } ∧
    (processRvdbFasta q d ls).tab.head? = some joinHeaderRow := by
  constructor
  · unfold processLine
    simp only [h1, if_true]
    rw [h2]
    have hc : st.dict.contains k = true := by
      rw [DDict.contains_eq, h3]; rfl
    simp only [hc, if_true]
    rw [DDict.getItem_of_lookup st.dict k (a, t, g) h3]
  · rw [processRvdbFasta_tab]
    rfl

/-- Witness for claim C2: the worked scenario of the spec, one hit header against
the single-entry dictionary. -/
theorem hit_rewrites_header_and_appends_join_row_witness :
    processLine false (initState demoDict) ">gi|99|A1.1|desc\n" =
      { initState demoDict with
          fout := (initState demoDict).fout ++
            [">" ++ "A1" ++ " " ++ headerOf ">gi|99|A1.1|desc\n" ++ "\n"],
          tab := (initState demoDict).tab ++
            ["A1" ++ "\t" ++ "A1.1" ++ "\t" ++ "9606" ++ "\t" ++ "12345" ++ "\n"] } ∧
    (processRvdbFasta false demoDict []).tab.head? = some joinHeaderRow :=
  hit_rewrites_header_and_appends_join_row false (initState demoDict)
    ">gi|99|A1.1|desc\n" "A1.1" "A1" "9606" "12345" demoDict []
    (by decide) (by decide) (by decide)

/-- Claim C3: a token is in the missing-id list iff it is the header text of
an input header line whose key is extractable and absent from the lookup
table; and on such a miss the header line is dropped: the step appends the
header to the missing list and leaves the rewritten FASTA (and join table)
untouched. -/
theorem missing_list_iff_extractable_and_absent
    (q : Bool) (d : DDict) (ls : List String) (tok : String) :
    (tok ∈ (processRvdbFasta q d ls).missing ↔
      ∃ l ∈ ls, isHeaderLine l = true ∧
        ∃ k, extractKey (headerOf l) = some k ∧ d.contains k = false ∧ tok = headerOf l) ∧
    (∀ st l2 k, isHeaderLine l2 = true → extractKey (headerOf l2) = some k →
        st.dict.contains k = false →
        processLine q st l2 = { st with missing := st.missing ++ [headerOf l2] }) := by
  constructor
  · rw [processRvdbFasta_missing, List.mem_filterMap]
    constructor
    · rintro ⟨l, hl, hm⟩
      exact ⟨l, hl, (missOf_eq_some d l tok).mp hm⟩
    · rintro ⟨l, hl, hm⟩
      exact ⟨l, hl, (missOf_eq_some d l tok).mpr hm⟩
  · intro st l2 k h1 h2 h3
    unfold processLine
    simp only [h1, if_true]
    rw [h2]
    simp [h3]

/-- Witness for claim C3: a miss against the single-entry dictionary appends
the header to the missing list and nothing else. -/
theorem missing_list_iff_extractable_and_absent_witness :
    processLine false (initState demoDict) ">gi|99|X9.9|desc\n" =
      { initState demoDict with
          missing := (initState demoDict).missing ++ [headerOf ">gi|99|X9.9|desc\n"] } :=
  (missing_list_iff_extractable_and_absent false demoDict [] "").2
    (initState demoDict) ">gi|99|X9.9|desc\n" "X9.9" (by decide) (by decide) (by decide)

/-- Claim C9: the lookup table is immutable during the rewrite pass — every
single step leaves the dictionary unchanged (the hit path reads it through
the guarded subscript without inserting), and a complete pass returns it
exactly as it was built. -/
theorem lookup_table_immutable_during_rewrite (q : Bool) (d : DDict) (ls : List String) :
    (∀ st l, (processLine q st l).dict = st.dict) ∧
    (processRvdbFasta q d ls).dict = d :=
  ⟨fun st l => processLine_dict q st l, by unfold processRvdbFasta; rw [foldl_dict]; rfl⟩

/-- Claim C8: the rewrite pass is deterministic and order-preserving — the
rewritten FASTA is exactly the input lines filtered-and-mapped in order, the
join table is the fixed header row followed by the hit rows in encounter
order, and the missing list collects the misses in encounter order. -/
theorem rewrite_pass_is_order_preserving (q : Bool) (d : DDict) (ls : List String) :
    (processRvdbFasta q d ls).fout = ls.filterMap (foutOf d) ∧
    (processRvdbFasta q d ls).tab = joinHeaderRow :: ls.filterMap (tabRowOf d) ∧
    (processRvdbFasta q d ls).missing = ls.filterMap (missOf d) :=
  ⟨processRvdbFasta_fout q d ls, processRvdbFasta_tab q d ls,
   processRvdbFasta_missing q d ls⟩

/-- Claim C4: key extraction from a (sentinel- and terminator-stripped)
header is a pure total function — fewer than 3 pipe fields signals "not
extractable", 3 or more make the key exactly field index 2 — and a
non-extractable header never aborts the pass: the step only logs a warning
(in non-quiet mode) and leaves every output untouched. -/
theorem key_extraction_pure_and_total
    (header : String) (q : Bool) (st : ProcState) (l : String) :
    ((pySplit header '|').length < 3 → extractKey header = none) ∧
    (2 < (pySplit header '|').length → extractKey header = (pySplit header '|').get? 2) ∧
    (isHeaderLine l = true → extractKey (headerOf l) = none →
      processLine q st l =
        { st with warnings :=
            if q then st.warnings else st.warnings ++ [malformedHeaderWarn (headerOf l)] }) := by
  refine ⟨?_, ?_, ?_⟩
  · intro h
    unfold extractKey
    simp [h]
  · intro h
    unfold extractKey
    have hn : ¬ (pySplit header '|').length < 3 := by omega
    simp only [if_neg hn]
    rw [List.get!_eq_getElem!, getElem!_pos (pySplit header '|') 2 h,
      List.get?_eq_getElem?, List.getElem?_eq_getElem h]
  · intro h1 h2
    unfold processLine
    simp only [h1, if_true]
    rw [h2]

/-- Witness for claim C4: a 2-field header is not extractable and only logs;
the key of a 4-field header is its third field. -/
theorem key_extraction_pure_and_total_witness :
    extractKey "gi|99" = none ∧
    extractKey "gi|99|A1.1|desc" = (pySplit "gi|99|A1.1|desc" '|').get? 2 ∧
    processLine false (initState demoDict) ">gi|99\n" =
      { initState demoDict with warnings :=
          if false then (initState demoDict).warnings
          else (initState demoDict).warnings ++ [malformedHeaderWarn (headerOf ">gi|99\n")] } :=
  ⟨(key_extraction_pure_and_total "gi|99" false (initState demoDict) ">gi|99\n").1
      (by decide),
   (key_extraction_pure_and_total "gi|99|A1.1|desc" false (initState demoDict)
      ">gi|99\n").2.1 (by decide),
   (key_extraction_pure_and_total "gi|99" false (initState demoDict) ">gi|99\n").2.2
      (by decide) (by decide)⟩

/-- Counterexample to claim C1 as stated: a mapping line with five
tab-separated fields is not skipped — the unpacking
`acc, acc_version, taxid, gi = fields` raises `ValueError`, the broad
exception handler reports it and the run aborts with `sys.exit(1)`,
modelled as `Except.error`. -/
theorem five_field_mapping_line_aborts_run :
    buildMappingDict false ["a\tb\tc\td\te"] 1 emptyDict [] =
      Except.error unpackErrMsg := by
  rfl

/-- Claim C1 (amended): a mapping line with fewer than 4 tab-separated fields
is skipped — with a diagnostic naming the line number and stripped content in
non-quiet mode — and processing continues with the next line; a line with
more than 4 fields, however, causes a fatal abort of the run. -/
theorem malformed_mapping_line_handling (quiet : Bool) (l : String)
    (ls : List String) (i : Nat) (d : DDict) (log : List String) :
    ((pySplit (pyStrip l) '\t').length < 4 →
      buildMappingDict quiet (l :: ls) i d log =
        buildMappingDict quiet ls (i + 1) d
          (if quiet then log else malformedLineWarn i l :: log)) ∧
    (4 < (pySplit (pyStrip l) '\t').length →
      buildMappingDict quiet (l :: ls) i d log = Except.error unpackErrMsg) := by
  constructor
  · intro h
    show (match parseMappingLine l with
      | .skip =>
          buildMappingDict quiet ls (i + 1) d
            (if quiet then log else malformedLineWarn i l :: log)
      | .entry accVersion acc taxid gi =>
          buildMappingDict quiet ls (i + 1) (d.setItem accVersion (acc, taxid, gi)) log
      | .unpackError => Except.error unpackErrMsg) = _
    rw [parseMappingLine_skip l h]
  · intro h
    show (match parseMappingLine l with
      | .skip =>
          buildMappingDict quiet ls (i + 1) d
            (if quiet then log else malformedLineWarn i l :: log)
      | .entry accVersion acc taxid gi =>
          buildMappingDict quiet ls (i + 1) (d.setItem accVersion (acc, taxid, gi)) log
      | .unpackError => Except.error unpackErrMsg) = _
    rw [parseMappingLine_err l h]

/-- Witness for claim C1 (amended): a 2-field line is skipped with its
warning; a 5-field line aborts. -/
theorem malformed_mapping_line_handling_witness :
    buildMappingDict false ["v\tw"] 1 emptyDict [] =
      buildMappingDict false [] 2 emptyDict
        (if false then [] else malformedLineWarn 1 "v\tw" :: []) ∧
    buildMappingDict false ["v\tw\tx\ty\tz"] 1 emptyDict [] =
      Except.error unpackErrMsg :=
  ⟨(malformed_mapping_line_handling false "v\tw" [] 1 emptyDict []).1 (by decide),
   (malformed_mapping_line_handling false "v\tw\tx\ty\tz" [] 1 emptyDict []).2
     (by decide)⟩

/-- Claim C5: duplicate keys in the mapping file — the entry read last wins.
After a successful load, the binding of a key is the `(acc, taxid, gi)` triple of
the last well-formed row carrying that accession.version (searching the rows
in reverse read order), falling back to the initial dictionary when the key
never occurs. -/
theorem last_mapping_row_wins (q : Bool) (ls : List String) (i : Nat)
    (d0 : DDict) (log : List String) (k : String) (d : DDict) (w : List String)
    (h : buildMappingDict q ls i d0 log = .ok (d, w)) :
    d.lookup k =
      match (mappingEntriesOf ls).reverse.find? (fun e => e.1 = k) with
      | some e => some e.2
      | none => d0.lookup k := by
  induction ls generalizing i d0 log with
  | nil =>
    unfold buildMappingDict at h
    simp only [Except.ok.injEq, Prod.mk.injEq] at h
    rw [← h.1]
    simp [mappingEntriesOf]
  | cons l ls ih =>
    have hstep : buildMappingDict q (l :: ls) i d0 log =
        match parseMappingLine l with
        | .skip =>
            buildMappingDict q ls (i + 1) d0
              (if q then log else malformedLineWarn i l :: log)
        | .entry accVersion acc taxid gi =>
            buildMappingDict q ls (i + 1) (d0.setItem accVersion (acc, taxid, gi)) log
        | .unpackError => Except.error unpackErrMsg := rfl
    have hent : mappingEntriesOf (l :: ls) =
        (match parseMappingLine l with
          | .entry accVersion acc taxid gi => some (accVersion, (acc, taxid, gi))
          | _ => none).toList ++ mappingEntriesOf ls := by
      unfold mappingEntriesOf
      rw [List.filterMap_cons]
      cases parseMappingLine l <;> simp
    rw [hstep] at h
    cases hp : parseMappingLine l with
    | skip =>
      rw [hp] at h
      rw [hent, hp]
      simp only [Option.toList, List.nil_append]
      exact ih _ _ _ h
    | entry accV acc t g =>
      rw [hp] at h
      rw [hent, hp]
      simp only [Option.toList, List.singleton_append, List.reverse_cons,
        List.find?_append]
      have := ih _ _ _ h
      rw [this]
      cases hfind : (mappingEntriesOf ls).reverse.find? (fun e => e.1 = k) with
      | some e => simp
      | none =>
        simp only [Option.none_or]
        rw [DDict.lookup_setItem]
        by_cases hk : accV = k
        · simp [List.find?_cons, hk]
        · simp [List.find?_cons, hk]
    | unpackError =>
      rw [hp] at h
      simp at h

/-- Witness for claim C5: two well-formed rows share the key `K`; after a
successful load the triple of the later row is the binding. -/
theorem last_mapping_row_wins_witness :
    ((emptyDict.setItem "K" ("A", "T", "G")).setItem "K" ("B", "U", "H")).lookup "K" =
      match (mappingEntriesOf ["A\tK\tT\tG", "B\tK\tU\tH"]).reverse.find?
          (fun e => e.1 = "K") with
      | some e => some e.2
      | none => emptyDict.lookup "K" :=
  last_mapping_row_wins false ["A\tK\tT\tG", "B\tK\tU\tH"] 1 emptyDict [] "K"
    ((emptyDict.setItem "K" ("A", "T", "G")).setItem "K" ("B", "U", "H")) []
    (by rfl)

/-! ### Splitting a newline-join recovers the identifiers -/

theorem pySplitAux_noSep (sep : Char) :
    ∀ (l acc : List Char), sep ∉ l → pySplitAux sep l acc = [⟨acc.reverse ++ l⟩] := by
  intro l
  induction l with
  | nil => intro acc _; simp [pySplitAux]
  | cons c rest ih =>
    intro acc hmem
    have hc : ¬ c = sep := fun hcs => hmem (hcs ▸ List.mem_cons_self c rest)
    unfold pySplitAux
    rw [if_neg hc, ih (c :: acc) (fun hr => hmem (List.mem_cons_of_mem c hr))]
    simp

theorem pySplitAux_seam (sep : Char) :
    ∀ (l1 l2 acc : List Char), sep ∉ l1 →
      pySplitAux sep (l1 ++ sep :: l2) acc =
        ⟨acc.reverse ++ l1⟩ :: pySplitAux sep l2 [] := by
  intro l1
  induction l1 with
  | nil =>
    intro l2 acc _
    rw [List.nil_append]
    have h1 : pySplitAux sep (sep :: l2) acc =
        if sep = sep then ⟨acc.reverse⟩ :: pySplitAux sep l2 []
        else pySplitAux sep l2 (sep :: acc) := rfl
    rw [h1, if_pos rfl]
    simp
  | cons c rest ih =>
    intro l2 acc hmem
    have hc : ¬ c = sep := fun hcs => hmem (hcs ▸ List.mem_cons_self c rest)
    rw [List.cons_append]
    have h1 : pySplitAux sep (c :: (rest ++ sep :: l2)) acc =
        if c = sep then ⟨acc.reverse⟩ :: pySplitAux sep (rest ++ sep :: l2) []
        else pySplitAux sep (rest ++ sep :: l2) (c :: acc) := rfl
    rw [h1, if_neg hc, ih l2 (c :: acc) (fun hr => hmem (List.mem_cons_of_mem c hr))]
    simp

theorem pySplit_pyJoinNl :
    ∀ (ids : List String), ids ≠ [] → (∀ s ∈ ids, '\n' ∉ s.data) →
      pySplit (pyJoinNl ids) '\n' = ids := by
  intro ids
  induction ids with
  | nil => intro h _; exact absurd rfl h
  | cons x rest ih =>
    intro _ hnl
    cases rest with
    | nil =>
      unfold pySplit pyJoinNl
      rw [pySplitAux_noSep '\n' x.data [] (hnl x (List.mem_cons_self x []))]
      simp
    | cons y rest2 =>
      unfold pySplit pyJoinNl
      have hdata : (x ++ "\n" ++ pyJoinNl (y :: rest2)).data =
          x.data ++ '\n' :: (pyJoinNl (y :: rest2)).data := by
        simp
      rw [hdata,
        pySplitAux_seam '\n' x.data (pyJoinNl (y :: rest2)).data []
          (hnl x (List.mem_cons_self x (y :: rest2)))]
      have hrest := ih (by simp) (fun s hs => hnl s (List.mem_cons_of_mem x hs))
      unfold pySplit at hrest
      rw [hrest]
      simp

/-- Claim C7: the missing-id file exists iff there was at least one miss —
`write_missing_ids` returns no content for an empty list, and for a non-empty
list it returns content whose newline-split is exactly the recorded
identifiers, one per line. -/
theorem missing_file_iff_misses (ids : List String) :
    (writeMissingIds ids = none ↔ ids = []) ∧
    (ids ≠ [] → (∀ s ∈ ids, '\n' ∉ s.data) →
      ∃ content, writeMissingIds ids = some content ∧
        pySplit content '\n' = ids) := by
  constructor
  · unfold writeMissingIds
    cases ids <;> simp
  · intro hne hnl
    refine ⟨pyJoinNl ids, ?_, pySplit_pyJoinNl ids hne hnl⟩
    unfold writeMissingIds
    rw [if_neg (by simpa using hne)]

/-- Witness for claim C7: two recorded identifiers produce a file whose
newline-split is exactly those identifiers. -/
theorem missing_file_iff_misses_witness :
    ∃ content, writeMissingIds ["idx", "idy"] = some content ∧
      pySplit content '\n' = ["idx", "idy"] :=
  (missing_file_iff_misses ["idx", "idy"]).2 (by decide) (by decide)

/-! ### Filtered-mode agreement -/

theorem buildMappingDictFiltered_cons (needed : List String) (l : String)
    (ls : List String) (df : DDict) :
    buildMappingDictFiltered needed (l :: ls) df =
      match parseMappingLine l with
      | .entry accVersion acc taxid gi =>
          buildMappingDictFiltered needed ls
            (if needed.contains accVersion then df.setItem accVersion (acc, taxid, gi)
             else df)
      | _ => buildMappingDictFiltered needed ls df := by
  cases hp : parseMappingLine l with
  | entry accV acc t g =>
    have hf := parseMappingLine_entry_inv l accV acc t g hp
    show (match pySplit (pyStrip l) '\t' with
      | [acc, accVersion, taxid, gi] =>
          if needed.contains accVersion then
            buildMappingDictFiltered needed ls (df.setItem accVersion (acc, taxid, gi))
          else buildMappingDictFiltered needed ls df
      | _ => buildMappingDictFiltered needed ls df) = _
    rw [hf]
    by_cases hm : accV ∈ needed <;> simp [hm]
  | skip =>
    have h4 : (pySplit (pyStrip l) '\t').length < 4 := by
      by_contra hge
      rcases Nat.lt_or_ge 4 (pySplit (pyStrip l) '\t').length with hgt | hle
      · rw [parseMappingLine_err l hgt] at hp; cases hp
      · have : (pySplit (pyStrip l) '\t').length = 4 := by omega
        rcases hf : pySplit (pyStrip l) '\t' with _ | ⟨a, _ | ⟨b, _ | ⟨c, _ | ⟨d, _ | ⟨e, r⟩⟩⟩⟩⟩ <;>
          rw [hf] at this <;> simp at this
        · rw [parseMappingLine_entry l a b c d hf] at hp; cases hp
    show (match pySplit (pyStrip l) '\t' with
      | [acc, accVersion, taxid, gi] =>
          if needed.contains accVersion then
            buildMappingDictFiltered needed ls (df.setItem accVersion (acc, taxid, gi))
          else buildMappingDictFiltered needed ls df
      | _ => buildMappingDictFiltered needed ls df) = _
    rcases hf : pySplit (pyStrip l) '\t' with _ | ⟨a, _ | ⟨b, _ | ⟨c, _ | ⟨d, _ | ⟨e, r⟩⟩⟩⟩⟩ <;>
      first
        | rfl
        | (rw [hf] at h4; simp at h4)
  | unpackError =>
    have h4 : 4 < (pySplit (pyStrip l) '\t').length := by
      by_contra hle
      rcases Nat.lt_or_ge (pySplit (pyStrip l) '\t').length 4 with hlt | hge
      · rw [parseMappingLine_skip l hlt] at hp; cases hp
      · have : (pySplit (pyStrip l) '\t').length = 4 := by omega
        rcases hf : pySplit (pyStrip l) '\t' with _ | ⟨a, _ | ⟨b, _ | ⟨c, _ | ⟨d, _ | ⟨e, r⟩⟩⟩⟩⟩ <;>
          rw [hf] at this <;> simp at this
        · rw [parseMappingLine_entry l a b c d hf] at hp; cases hp
    show (match pySplit (pyStrip l) '\t' with
      | [acc, accVersion, taxid, gi] =>
          if needed.contains accVersion then
            buildMappingDictFiltered needed ls (df.setItem accVersion (acc, taxid, gi))
          else buildMappingDictFiltered needed ls df
      | _ => buildMappingDictFiltered needed ls df) = _
    rcases hf : pySplit (pyStrip l) '\t' with _ | ⟨a, _ | ⟨b, _ | ⟨c, _ | ⟨d, _ | ⟨e, r⟩⟩⟩⟩⟩ <;>
      first
        | rfl
        | (rw [hf] at h4; simp at h4)

theorem build_filtered_agree (needed : List String) (q : Bool) :
    ∀ (mls : List String) (i : Nat) (d0 df0 : DDict) (log : List String)
      (d : DDict) (w : List String),
      buildMappingDict q mls i d0 log = .ok (d, w) →
      (∀ k, k ∈ needed → df0.lookup k = d0.lookup k) →
      ∀ k, k ∈ needed →
        (buildMappingDictFiltered needed mls df0).lookup k = d.lookup k := by
  intro mls
  induction mls with
  | nil =>
    intro i d0 df0 log d w h hinv k hk
    unfold buildMappingDict at h
    simp only [Except.ok.injEq, Prod.mk.injEq] at h
    unfold buildMappingDictFiltered
    rw [← h.1]
    exact hinv k hk
  | cons l ls ih =>
    intro i d0 df0 log d w h hinv k hk
    have hstep : buildMappingDict q (l :: ls) i d0 log =
        match parseMappingLine l with
        | .skip =>
            buildMappingDict q ls (i + 1) d0
              (if q then log else malformedLineWarn i l :: log)
        | .entry accVersion acc taxid gi =>
            buildMappingDict q ls (i + 1) (d0.setItem accVersion (acc, taxid, gi)) log
        | .unpackError => Except.error unpackErrMsg := rfl
    rw [hstep] at h
    rw [buildMappingDictFiltered_cons]
    cases hp : parseMappingLine l with
    | skip =>
      rw [hp] at h
      exact ih _ _ _ _ _ _ h hinv k hk
    | unpackError =>
      rw [hp] at h
      simp at h
    | entry accV acc t g =>
      rw [hp] at h
      simp only
      by_cases hc : needed.contains accV = true
      · rw [if_pos hc]
        refine ih _ _ _ _ _ _ h ?_ k hk
        intro k2 hk2
        rw [DDict.lookup_setItem, DDict.lookup_setItem]
        by_cases he : accV = k2
        · simp [he]
        · simp only [if_neg he]
          exact hinv k2 hk2
      · rw [if_neg hc]
        refine ih _ _ _ _ _ _ h ?_ k hk
        intro k2 hk2
        have hne : accV ≠ k2 := by
          intro he
          apply hc
          rw [he]
          unfold List.contains
          exact List.elem_eq_true_of_mem hk2
        rw [DDict.lookup_setItem, if_neg hne]
        exact hinv k2 hk2

theorem foutOf_congr (d1 d2 : DDict) (l : String)
    (h : ∀ k, isHeaderLine l = true → extractKey (headerOf l) = some k →
      d1.lookup k = d2.lookup k) :
    foutOf d1 l = foutOf d2 l := by
  unfold foutOf
  cases hh : isHeaderLine l with
  | false => rfl
  | true =>
    simp only [if_true]
    cases hk : extractKey (headerOf l) with
    | none => rfl
    | some k => simp only [h k hh hk]

theorem tabRowOf_congr (d1 d2 : DDict) (l : String)
    (h : ∀ k, isHeaderLine l = true → extractKey (headerOf l) = some k →
      d1.lookup k = d2.lookup k) :
    tabRowOf d1 l = tabRowOf d2 l := by
  unfold tabRowOf
  cases hh : isHeaderLine l with
  | false => rfl
  | true =>
    simp only [if_true]
    cases hk : extractKey (headerOf l) with
    | none => rfl
    | some k => simp only [h k hh hk]

theorem missOf_congr (d1 d2 : DDict) (l : String)
    (h : ∀ k, isHeaderLine l = true → extractKey (headerOf l) = some k →
      d1.lookup k = d2.lookup k) :
    missOf d1 l = missOf d2 l := by
  unfold missOf
  cases hh : isHeaderLine l with
  | false => rfl
  | true =>
    simp only [if_true]
    cases hk : extractKey (headerOf l) with
    | none => rfl
    | some k => simp only [DDict.contains_eq, h k hh hk]

theorem mem_neededKeys (fls : List String) (l k : String)
    (hl : l ∈ fls) (hh : isHeaderLine l = true)
    (hk : extractKey (headerOf l) = some k) : k ∈ neededKeys fls := by
  unfold neededKeys
  rw [List.mem_filterMap]
  exact ⟨l, hl, by rw [hh]; simpa using hk⟩

/-- Claim C6: for a fixed FASTA and mapping file, whenever the full-mode run
completes its mapping load, processing the FASTA against the filtered-mode
lookup table (spec-modelled loader restricted to the Needed-Key Set of a
first pass over the FASTA) yields a rewritten FASTA, join table and missing
list identical to those produced against the full-mode table. -/
theorem filtered_mode_equivalent_to_full_mode (q q2 : Bool)
    (mls fls : List String) (d : DDict) (w : List String)
    (h : buildMappingDict q mls 1 emptyDict [] = .ok (d, w)) :
    (processRvdbFasta q2 (buildMappingDictFiltered (neededKeys fls) mls emptyDict) fls).fout =
      (processRvdbFasta q2 d fls).fout ∧
    (processRvdbFasta q2 (buildMappingDictFiltered (neededKeys fls) mls emptyDict) fls).tab =
      (processRvdbFasta q2 d fls).tab ∧
    (processRvdbFasta q2 (buildMappingDictFiltered (neededKeys fls) mls emptyDict) fls).missing =
      (processRvdbFasta q2 d fls).missing := by
  have hagree : ∀ k, k ∈ neededKeys fls →
      (buildMappingDictFiltered (neededKeys fls) mls emptyDict).lookup k = d.lookup k :=
    build_filtered_agree (neededKeys fls) q mls 1 emptyDict emptyDict [] d w h
      (fun _ _ => rfl)
  have hline : ∀ l ∈ fls, ∀ k, isHeaderLine l = true →
      extractKey (headerOf l) = some k →
      (buildMappingDictFiltered (neededKeys fls) mls emptyDict).lookup k = d.lookup k :=
    fun l hl k hh hk => hagree k (mem_neededKeys fls l k hl hh hk)
  refine ⟨?_, ?_, ?_⟩
  · rw [processRvdbFasta_fout, processRvdbFasta_fout]
    exact List.filterMap_congr fun l hl => foutOf_congr _ _ l (hline l hl)
  · rw [processRvdbFasta_tab, processRvdbFasta_tab]
    rw [List.filterMap_congr fun l hl => tabRowOf_congr _ _ l (hline l hl)]
  · rw [processRvdbFasta_missing, processRvdbFasta_missing]
    exact List.filterMap_congr fun l hl => missOf_congr _ _ l (hline l hl)

/-- Witness for claim C6: the worked scenario of the spec, with an extra mapping
row that filtered mode discards; both modes produce identical outputs. -/
theorem filtered_mode_equivalent_to_full_mode_witness :
    (processRvdbFasta false
        (buildMappingDictFiltered
          (neededKeys [">gi|99|A1.1|desc\n", "MKV\n"])
          ["A1\tA1.1\t9606\t12345\n", "B2\tB2.1\t10090\t777\n"] emptyDict)
        [">gi|99|A1.1|desc\n", "MKV\n"]).fout =
      (processRvdbFasta false
        (emptyDict.setItem "A1.1" ("A1", "9606", "12345")
          |>.setItem "B2.1" ("B2", "10090", "777"))
        [">gi|99|A1.1|desc\n", "MKV\n"]).fout ∧
    (processRvdbFasta false
        (buildMappingDictFiltered
          (neededKeys [">gi|99|A1.1|desc\n", "MKV\n"])
          ["A1\tA1.1\t9606\t12345\n", "B2\tB2.1\t10090\t777\n"] emptyDict)
        [">gi|99|A1.1|desc\n", "MKV\n"]).tab =
      (processRvdbFasta false
        (emptyDict.setItem "A1.1" ("A1", "9606", "12345")
          |>.setItem "B2.1" ("B2", "10090", "777"))
        [">gi|99|A1.1|desc\n", "MKV\n"]).tab ∧
    (processRvdbFasta false
        (buildMappingDictFiltered
          (neededKeys [">gi|99|A1.1|desc\n", "MKV\n"])
          ["A1\tA1.1\t9606\t12345\n", "B2\tB2.1\t10090\t777\n"] emptyDict)
        [">gi|99|A1.1|desc\n", "MKV\n"]).missing =
      (processRvdbFasta false
        (emptyDict.setItem "A1.1" ("A1", "9606", "12345")
          |>.setItem "B2.1" ("B2", "10090", "777"))
        [">gi|99|A1.1|desc\n", "MKV\n"]).missing :=
  filtered_mode_equivalent_to_full_mode false false
    ["A1\tA1.1\t9606\t12345\n", "B2\tB2.1\t10090\t777\n"]
    [">gi|99|A1.1|desc\n", "MKV\n"]
    (emptyDict.setItem "A1.1" ("A1", "9606", "12345")
      |>.setItem "B2.1" ("B2", "10090", "777")) []
    (by rfl)

/-! ### Stripping and empty trailing fields -/

theorem stripRight_append_ws (l : List Char) (c : Char) (hc : pyIsSpace c = true) :
    stripRight (l ++ [c]) = stripRight l := by
  unfold stripRight
  rw [List.reverse_append]
  simp only [List.reverse_cons, List.reverse_nil, List.nil_append, List.singleton_append]
  rw [List.dropWhile_cons_of_pos hc]

theorem pyStripList_append_ws (l : List Char) (c : Char) (hc : pyIsSpace c = true) :
    pyStripList (l ++ [c]) = pyStripList l := by
  unfold pyStripList
  rw [stripRight_append_ws l c hc]

theorem pyStripList_sublist (l : List Char) : List.Sublist (pyStripList l) l := by
  refine List.Sublist.trans (List.dropWhile_sublist pyIsSpace) ?_
  have h : List.Sublist (l.reverse.dropWhile pyIsSpace).reverse l.reverse.reverse :=
    List.reverse_sublist.mpr (List.dropWhile_sublist pyIsSpace)
  simpa using h

theorem pySplitAux_length (sep : Char) :
    ∀ (l acc : List Char), (pySplitAux sep l acc).length = l.count sep + 1 := by
  intro l
  induction l with
  | nil => intro acc; rfl
  | cons c rest ih =>
    intro acc
    unfold pySplitAux
    by_cases hc : c = sep
    · rw [if_pos hc]
      simp [ih, hc, List.count_cons]
    · rw [if_neg hc]
      rw [ih]
      simp [List.count_cons, hc]

theorem trailing_tab_row_skipped (f1 f2 f3 : String)
    (h1 : '\t' ∉ f1.data) (h2 : '\t' ∉ f2.data) (h3 : '\t' ∉ f3.data) :
    parseMappingLine (f1 ++ "\t" ++ f2 ++ "\t" ++ f3 ++ "\t") = .skip := by
  apply parseMappingLine_skip
  have ht : ("\t" : String).data = ['\t'] := rfl
  have hdata : (f1 ++ "\t" ++ f2 ++ "\t" ++ f3 ++ "\t").data =
      (f1.data ++ '\t' :: f2.data ++ '\t' :: f3.data) ++ ['\t'] := by
    simp [ht]
  show (pySplitAux '\t' (pyStripList (f1 ++ "\t" ++ f2 ++ "\t" ++ f3 ++ "\t").data) []).length < 4
  rw [hdata, pyStripList_append_ws _ '\t' rfl, pySplitAux_length]
  have hle : (pyStripList (f1.data ++ '\t' :: f2.data ++ '\t' :: f3.data)).count '\t' ≤
      (f1.data ++ '\t' :: f2.data ++ '\t' :: f3.data).count '\t' :=
    (pyStripList_sublist _).count_le '\t'
  have hcnt : (f1.data ++ '\t' :: f2.data ++ '\t' :: f3.data).count '\t' = 2 := by
    simp [List.count_append, List.count_cons, List.count_eq_zero.mpr h1,
      List.count_eq_zero.mpr h2, List.count_eq_zero.mpr h3]
  omega

theorem pySplitAux_ne_nil (sep : Char) :
    ∀ (l acc : List Char), pySplitAux sep l acc ≠ [] := by
  intro l
  induction l with
  | nil => intro acc; simp [pySplitAux]
  | cons c rest ih =>
    intro acc
    unfold pySplitAux
    by_cases hc : c = sep
    · rw [if_pos hc]; simp
    · rw [if_neg hc]; exact ih _

theorem stripLeft_getLast? (l : List Char) (h : stripLeft l ≠ []) :
    (stripLeft l).getLast? = l.getLast? := by
  induction l with
  | nil => exact absurd rfl h
  | cons c rest ih =>
    by_cases hc : pyIsSpace c
    · have hstep : stripLeft (c :: rest) = stripLeft rest := by
        unfold stripLeft
        exact List.dropWhile_cons_of_pos hc
      rw [hstep] at h ⊢
      have hr : rest ≠ [] := by
        intro he
        rw [he] at h
        exact h rfl
      rw [ih h]
      cases rest with
      | nil => exact absurd rfl hr
      | cons y ys => rw [List.getLast?_cons_cons]
    · have hstep : stripLeft (c :: rest) = c :: rest := by
        unfold stripLeft
        exact List.dropWhile_cons_of_neg hc
      rw [hstep]

theorem stripRight_getLast_not_ws (l : List Char) (c : Char)
    (h : (stripRight l).getLast? = some c) : pyIsSpace c = false := by
  unfold stripRight at h
  rw [List.getLast?_reverse] at h
  have hw := List.head?_dropWhile_not pyIsSpace l.reverse
  rw [h] at hw
  exact hw

theorem pyStripList_getLast_not_ws (l : List Char) (c : Char)
    (h : (pyStripList l).getLast? = some c) : pyIsSpace c = false := by
  unfold pyStripList at h
  have hne : stripLeft (stripRight l) ≠ [] := by
    intro he
    rw [he] at h
    cases h
  rw [stripLeft_getLast? _ hne] at h
  exact stripRight_getLast_not_ws l c h

theorem pySplitAux_getLast_ne_empty (sep : Char) :
    ∀ (l acc : List Char) (c : Char), l.getLast? = some c → ¬ c = sep →
      ∀ s, (pySplitAux sep l acc).getLast? = some s → s.data ≠ [] := by
  intro l
  induction l with
  | nil =>
    intro acc c hc
    cases hc
  | cons x rest ih =>
    intro acc c hc hcs s hs
    cases rest with
    | nil =>
      have hx : x = c := by
        simpa using hc
      have hxs : ¬ x = sep := by
        rw [hx]; exact hcs
      have hred : pySplitAux sep [x] acc = [⟨(x :: acc).reverse⟩] := by
        unfold pySplitAux
        rw [if_neg hxs]
        rfl
      rw [hred] at hs
      simp only [List.getLast?_singleton, Option.some.injEq] at hs
      rw [← hs]
      simp
    | cons y ys =>
      have hc2 : (y :: ys).getLast? = some c := by
        rw [← List.getLast?_cons_cons (a := x)]
        exact hc
      have hstep : pySplitAux sep (x :: y :: ys) acc =
          if x = sep then ⟨acc.reverse⟩ :: pySplitAux sep (y :: ys) []
          else pySplitAux sep (y :: ys) (x :: acc) := rfl
      rw [hstep] at hs
      by_cases hx : x = sep
      · rw [if_pos hx] at hs
        have hne := pySplitAux_ne_nil sep (y :: ys) []
        cases hz : (pySplitAux sep (y :: ys) []).getLast? with
        | none =>
          rw [List.getLast?_eq_none_iff] at hz
          exact absurd hz hne
        | some z =>
          rw [List.getLast?_cons, hz] at hs
          simp only [Option.getD_some] at hs
          injection hs with hzs
          rw [hzs] at hz
          exact ih [] c hc2 hcs s hz
      · rw [if_neg hx] at hs
        exact ih (x :: acc) c hc2 hcs s hs

theorem parse_entry_gi_ne_empty (l k a t g : String)
    (h : parseMappingLine l = .entry k a t g) : g ≠ "" := by
  have hfields : pySplitAux '\t' (pyStripList l.data) [] = [a, k, t, g] :=
    parseMappingLine_entry_inv l k a t g h
  have hne : pyStripList l.data ≠ [] := by
    intro he
    rw [he] at hfields
    simp [pySplitAux] at hfields
  obtain ⟨c, hc⟩ : ∃ c, (pyStripList l.data).getLast? = some c := by
    cases hgl : (pyStripList l.data).getLast? with
    | none =>
      rw [List.getLast?_eq_none_iff] at hgl
      exact absurd hgl hne
    | some c => exact ⟨c, rfl⟩
  have hws := pyStripList_getLast_not_ws l.data c hc
  have hcs : ¬ c = '\t' := by
    intro he
    rw [he] at hws
    cases hws
  have hlast : (pySplitAux '\t' (pyStripList l.data) []).getLast? = some g := by
    rw [hfields]
    rfl
  have hdata := pySplitAux_getLast_ne_empty '\t' (pyStripList l.data) [] c hc hcs g hlast
  intro hg
  rw [hg] at hdata
  exact hdata rfl

theorem buildMappingDict_gi_ne (q : Bool) :
    ∀ (ls : List String) (i : Nat) (d0 : DDict) (log : List String)
      (d : DDict) (w : List String),
      buildMappingDict q ls i d0 log = .ok (d, w) →
      (∀ k a t g, d0.lookup k = some (a, t, g) → g ≠ "") →
      ∀ k a t g, d.lookup k = some (a, t, g) → g ≠ "" := by
  intro ls
  induction ls with
  | nil =>
    intro i d0 log d w h hinv
    unfold buildMappingDict at h
    simp only [Except.ok.injEq, Prod.mk.injEq] at h
    rw [← h.1]
    exact hinv
  | cons l ls ih =>
    intro i d0 log d w h hinv
    have hstep : buildMappingDict q (l :: ls) i d0 log =
        match parseMappingLine l with
        | .skip =>
            buildMappingDict q ls (i + 1) d0
              (if q then log else malformedLineWarn i l :: log)
        | .entry accVersion acc taxid gi =>
            buildMappingDict q ls (i + 1) (d0.setItem accVersion (acc, taxid, gi)) log
        | .unpackError => Except.error unpackErrMsg := rfl
    rw [hstep] at h
    cases hp : parseMappingLine l with
    | skip =>
      rw [hp] at h
      exact ih _ _ _ _ _ h hinv
    | unpackError =>
      rw [hp] at h
      simp at h
    | entry accV acc t2 g2 =>
      rw [hp] at h
      refine ih _ _ _ _ _ h ?_
      intro k a t g hl
      rw [DDict.lookup_setItem] at hl
      by_cases he : accV = k
      · rw [if_pos he] at hl
        simp only [Option.some.injEq, Prod.mk.injEq] at hl
        rw [← hl.2.2]
        exact parse_entry_gi_ne_empty l accV acc t2 g2 hp
      · rw [if_neg he] at hl
        exact hinv k a t g hl

/-- Claim C10: the loader strips whitespace — tabs included — from both ends
of a line before splitting on tabs; hence a 4-field row whose gi field is
empty (a line ending in a tab) loses that trailing tab to the strip, parses
as fewer than 4 fields and is skipped, and no entry with an empty gi field is
ever added to the lookup table. -/
theorem empty_gi_rows_never_loaded (q : Bool) (f1 f2 f3 : String)
    (ls : List String) (i : Nat) (log : List String) (d : DDict)
    (w : List String) (k a t g : String) :
    pyIsSpace '\t' = true ∧
    ('\t' ∉ f1.data → '\t' ∉ f2.data → '\t' ∉ f3.data →
      parseMappingLine (f1 ++ "\t" ++ f2 ++ "\t" ++ f3 ++ "\t") = .skip) ∧
    (buildMappingDict q ls i emptyDict log = .ok (d, w) →
      d.lookup k = some (a, t, g) → g ≠ "") := by
  refine ⟨rfl, trailing_tab_row_skipped f1 f2 f3, ?_⟩
  intro h hl
  refine buildMappingDict_gi_ne q ls i emptyDict log d w h ?_ k a t g hl
  intro k2 a2 t2 g2 h2
  cases h2

/-- Witness for claim C10: a row whose gi field is empty is skipped, and the
gi field loaded from a well-formed row is non-empty. -/
theorem empty_gi_rows_never_loaded_witness :
    pyIsSpace '\t' = true ∧
    parseMappingLine ("v" ++ "\t" ++ "w" ++ "\t" ++ "x" ++ "\t") = .skip ∧
    ("12345" : String) ≠ "" :=
  ⟨(empty_gi_rows_never_loaded false "v" "w" "x" [] 1 [] emptyDict [] "" "" "" "").1,
   (empty_gi_rows_never_loaded false "v" "w" "x" [] 1 [] emptyDict [] "" "" "" "").2.1
     (by decide) (by decide) (by decide),
   (empty_gi_rows_never_loaded false "v" "w" "x" ["A1\tA1.1\t9606\t12345\n"] 1 []
       demoDict [] "A1.1" "A1" "9606" "12345").2.2 (by rfl) (by rfl)⟩

end Rvdb
